import Mathlib

/-!
Verification of the Solacium backend SSE relay (src/index.ts).

The development shallowly embeds the parts of the relay that its
specification talks about:

* the `formatBuffer` cleanup pass (four global regex replacements and a
  final trim), modelled as executable functions on `List Char`;
* the incremental reassembler (`ingest`, buffer plus the
  `hasMainAnswer`, `stepCount`, `hasShownSources` flags) from the
  canonical structured-mode variant, together with its structured-JSON
  branch (a small JSON value model with an executable parser and the
  deterministic Markdown rendering);
* the flush heuristic of the plain-text variant with the 100-character
  length threshold (`ingestV0`);
* the call-level behaviour: the data/end/error stream handlers, the
  missing-credential check, the history parameter parsing, and the
  outbound SSE channel.  The response object is modelled as a channel
  that records emitted events in order and drops writes once the
  response has been ended (a Node response write after end does not
  reach the wire).

Strings are modelled as `List Char`.  JavaScript regular-expression
replacement is modelled by left-to-right scans that mirror the
backtracking behaviour of the concrete patterns used by the source.
-/

namespace Solacium

/-- Characters treated as whitespace by the JavaScript regex class
backslash-s and by `String.prototype.trim` (the common ASCII subset;
exotic Unicode space characters are not modelled). -/
def isWs (c : Char) : Bool :=
  c = ' ' || c = '\t' || c = '\n' || c = '\r' || c = Char.ofNat 11 || c = Char.ofNat 12

/-- Convert a Lean string literal to the character-list representation. -/
def lstr (s : String) : List Char := s.toList

/-- Boolean test that `p` is a leading segment of `s`. -/
def hasPre : List Char → List Char → Bool
  | [], _ => true
  | _ :: _, [] => false
  | p :: ps, c :: tl => p = c && hasPre ps tl

/-- Boolean substring test, as `String.prototype.includes`. -/
def containsSub (p : List Char) : List Char → Bool
  | [] => hasPre p []
  | c :: tl => hasPre p (c :: tl) || containsSub p tl

/-- Remove trailing whitespace. -/
def rtrim (s : List Char) : List Char :=
  ((s.reverse).dropWhile isWs).reverse

/-- Both-ends whitespace trim, as `String.prototype.trim`. -/
def trim (s : List Char) : List Char :=
  rtrim (s.dropWhile isWs)

/-- The characters of the literal `Click here`. -/
def chW : List Char := ['C', 'l', 'i', 'c', 'k', ' ', 'h', 'e', 'r', 'e']

/-- The literal that the lazy first group of the nested-link pattern must
reach: the text between the two capture groups of
`[(.*?)]([Click here]((.*?)))` read off the source regex. -/
def lit1 : List Char := ']' :: '(' :: '[' :: (chW ++ [']', '('])

/-- The literal `[Click here]` removed by the second replacement. -/
def lit2 : List Char := '[' :: (chW ++ [']'])

/-- Two closing parentheses, the tail of both the nested-link pattern and
the doubled-parenthesis pattern. -/
def dpr : List Char := [')', ')']

/-- Characters the regex dot does not match (no dotall flag). -/
def isNl (c : Char) : Bool := c = '\n' || c = '\r'

/-- Lazy scan for `(.*?)` followed by the literal `lit`: returns the
shortest run of non-newline characters after which `lit` occurs, plus
the rest after `lit`. -/
def lazyUntil (lit : List Char) : List Char → Option (List Char × List Char)
  | [] => if hasPre lit [] then some ([], []) else none
  | c :: tl =>
    if hasPre lit (c :: tl) then some ([], (c :: tl).drop lit.length)
    else if isNl c then none
    else (lazyUntil lit tl).map (fun p => (c :: p.1, p.2))

/-- Match attempt for the body of the nested-link pattern after its
opening bracket: finds the first group (lazy, extended on backtracking
past failed candidates), the second group and the rest after the final
two closing parentheses. -/
def tryNested : List Char → Option (List Char × List Char × List Char)
  | [] => none
  | c :: tl =>
    if hasPre lit1 (c :: tl) then
      match lazyUntil dpr ((c :: tl).drop lit1.length) with
      | some p => some ([], p.1, p.2)
      | none =>
        if isNl c then none
        else (tryNested tl).map (fun t => (c :: t.1, t.2.1, t.2.2))
    else
      if isNl c then none
      else (tryNested tl).map (fun t => (c :: t.1, t.2.1, t.2.2))

theorem hasPre_decomp : ∀ p s : List Char, hasPre p s = true → s = p ++ s.drop p.length := by
  intro p
  induction p with
  | nil => intro s _; simp
  | cons a ps ih =>
    intro s h
    cases s with
    | nil => simp [hasPre] at h
    | cons c tl =>
      simp only [hasPre, Bool.and_eq_true, decide_eq_true_eq] at h
      obtain ⟨rfl, h2⟩ := h
      simpa using congrArg (a :: ·) (ih tl h2)

theorem hasPre_append_self : ∀ p r : List Char, hasPre p (p ++ r) = true := by
  intro p
  induction p with
  | nil => intro r; simp [hasPre]
  | cons a ps ih => intro r; simp [hasPre, ih]

theorem lazyUntil_decomp (lit : List Char) :
    ∀ s g r, lazyUntil lit s = some (g, r) → s = g ++ lit ++ r := by
  intro s
  induction s with
  | nil =>
    intro g r h
    simp only [lazyUntil] at h
    split at h
    · rename_i hp
      obtain ⟨rfl, rfl⟩ := Prod.mk.injEq _ _ _ _ ▸ Option.some.inj h
      have := hasPre_decomp lit [] hp
      simpa using this.symm
    · exact absurd h (by simp)
  | cons c tl ih =>
    intro g r h
    simp only [lazyUntil] at h
    split at h
    · rename_i hp
      obtain ⟨rfl, rfl⟩ := Prod.mk.injEq _ _ _ _ ▸ Option.some.inj h
      have := hasPre_decomp lit (c :: tl) hp
      simpa using this
    · split at h
      · exact absurd h (by simp)
      · cases hrec : lazyUntil lit tl with
        | none => rw [hrec] at h; exact absurd h (by simp)
        | some p =>
          rw [hrec] at h
          obtain ⟨g', r'⟩ := p
          simp only [Option.map_some', Option.some.injEq, Prod.mk.injEq] at h
          rw [← h.1, ← h.2]
          simpa using congrArg (c :: ·) (ih g' r' hrec)

theorem tryNested_decomp :
    ∀ s g1 g2 r, tryNested s = some (g1, g2, r) →
      s = g1 ++ lit1 ++ g2 ++ dpr ++ r := by
  intro s
  induction s with
  | nil => intro g1 g2 r h; simp [tryNested] at h
  | cons c tl ih =>
    intro g1 g2 r h
    simp only [tryNested] at h
    split at h
    · rename_i hp
      split at h
      · rename_i p hlz
        obtain ⟨gg, rr⟩ := p
        simp only [Option.some.injEq, Prod.mk.injEq] at h
        obtain ⟨rfl, rfl, rfl⟩ := h
        have hd := hasPre_decomp lit1 (c :: tl) hp
        have hz := lazyUntil_decomp dpr _ _ _ hlz
        rw [hd, hz]
        simp [List.append_assoc]
      · split at h
        · exact absurd h (by simp)
        · cases hrec : tryNested tl with
          | none => rw [hrec] at h; exact absurd h (by simp)
          | some t =>
            rw [hrec] at h
            obtain ⟨g1', g2', r'⟩ := t
            simp only [Option.map_some', Option.some.injEq, Prod.mk.injEq] at h
            rw [← h.1, ← h.2.1, ← h.2.2]
            simpa using congrArg (c :: ·) (ih g1' g2' r' hrec)
    · split at h
      · exact absurd h (by simp)
      · cases hrec : tryNested tl with
        | none => rw [hrec] at h; exact absurd h (by simp)
        | some t =>
          rw [hrec] at h
          obtain ⟨g1', g2', r'⟩ := t
          simp only [Option.map_some', Option.some.injEq, Prod.mk.injEq] at h
          rw [← h.1, ← h.2.1, ← h.2.2]
          simpa using congrArg (c :: ·) (ih g1' g2' r' hrec)

/-- First replacement, global form: scan left to right; at a `[` attempt
the nested-link match, emit the rewritten link `[text](url)` and resume
after the match, otherwise keep the character.  The fuel argument makes
the definition structurally recursive; it never runs out because every
recursive call strictly shrinks the list, so fuel `s.length` suffices. -/
def replaceNestedF : Nat → List Char → List Char
  | 0, s => s
  | Nat.succ _f, [] => []
  | Nat.succ f, c :: tl =>
    if c = '[' then
      match tryNested tl with
      | some t => '[' :: (t.1 ++ ']' :: '(' :: (t.2.1 ++ ')' :: replaceNestedF f t.2.2))
      | none => c :: replaceNestedF f tl
    else c :: replaceNestedF f tl

/-- `.replace(/\[(.*?)\]\(\[Click here\]\((.*?)\)\)/g, (_, text, url) => ...)`. -/
def replaceNested (s : List Char) : List Char := replaceNestedF s.length s

/-- Second replacement: remove every occurrence of the literal
`[Click here]`, leftmost first, as `.replace(/\[Click here\]/g, ...)`. -/
def removeClickHereF : Nat → List Char → List Char
  | 0, s => s
  | Nat.succ _f, [] => []
  | Nat.succ f, c :: tl =>
    if hasPre lit2 (c :: tl) then removeClickHereF f ((c :: tl).drop lit2.length)
    else c :: removeClickHereF f tl

def removeClickHere (s : List Char) : List Char := removeClickHereF s.length s

/-- Match attempt for `\(\s*Click here\s*\)` at the head of the list.
The two greedy whitespace runs are deterministic because the characters
that must follow them are not whitespace. -/
def clickParen : List Char → Option (List Char)
  | '(' :: r =>
    if hasPre chW (r.dropWhile isWs) then
      match ((r.dropWhile isWs).drop chW.length).dropWhile isWs with
      | ')' :: r3 => some r3
      | _ => none
    else none
  | _ => none

/-- Third replacement: `.replace(/\(\s*Click here\s*\)/g, '')`. -/
def removeClickParenF : Nat → List Char → List Char
  | 0, s => s
  | Nat.succ _f, [] => []
  | Nat.succ f, c :: tl =>
    match clickParen (c :: tl) with
    | some r => removeClickParenF f r
    | none => c :: removeClickParenF f tl

def removeClickParen (s : List Char) : List Char := removeClickParenF s.length s

/-- Match attempt for `\s*\)\)` at the head of the list: a greedy
whitespace run followed by two closing parentheses. -/
def wsParens (s : List Char) : Option (List Char) :=
  match s.dropWhile isWs with
  | ')' :: ')' :: r => some r
  | _ => none

/-- Fourth replacement: `.replace(/\s*\)\)/g, ')')`. -/
def collapseParensF : Nat → List Char → List Char
  | 0, s => s
  | Nat.succ _f, [] => []
  | Nat.succ f, c :: tl =>
    match wsParens (c :: tl) with
    | some r => ')' :: collapseParensF f r
    | none => c :: collapseParensF f tl

def collapseParens (s : List Char) : List Char := collapseParensF s.length s

/-- The `formatBuffer` helper of src/index.ts: the four replacements in
source order followed by `.trim()`. -/
def formatBuffer (s : List Char) : List Char :=
  trim (collapseParens (removeClickParen (removeClickHere (replaceNested s))))

example : formatBuffer (lstr "[Click here]([Click here](https://a.gov))") =
    lstr "(https://a.gov)" := by decide

example : formatBuffer (lstr "f(g(x))") = lstr "f(g(x)" := by decide

example : formatBuffer (lstr ")))") = lstr "))" := by decide

theorem tryNested_rest_lt :
    ∀ s g1 g2 r, tryNested s = some (g1, g2, r) → r.length < s.length := by
  intro s g1 g2 r h
  have hd := tryNested_decomp s g1 g2 r h
  subst hd
  simp only [List.length_append, List.length_cons, List.length_nil, lit1, dpr, chW]
  omega

theorem containsSub_tail (p : List Char) (c : Char) (tl : List Char) :
    containsSub p tl = true → containsSub p (c :: tl) = true := by
  intro h
  simp [containsSub, h]

theorem containsSub_nil_pat : ∀ l : List Char, containsSub [] l = true := by
  intro l
  cases l with
  | nil => rfl
  | cons c tl => simp [containsSub, hasPre]

theorem containsSub_of_hasPre (p s : List Char) :
    hasPre p s = true → containsSub p s = true := by
  intro h
  cases s with
  | nil => simpa [containsSub] using h
  | cons c tl => simp [containsSub, h]

theorem hasPre_mono_append (p : List Char) :
    ∀ a b : List Char, hasPre p a = true → hasPre p (a ++ b) = true := by
  induction p with
  | nil => intro a b _; simp [hasPre]
  | cons x ps ih =>
    intro a b h
    cases a with
    | nil => simp [hasPre] at h
    | cons c tl =>
      simp only [hasPre, Bool.and_eq_true, decide_eq_true_eq] at h
      simp [hasPre, h.1, ih tl b h.2]

theorem containsSub_append_r (p : List Char) :
    ∀ a b : List Char, containsSub p a = true → containsSub p (a ++ b) = true := by
  intro a
  induction a with
  | nil =>
    intro b h
    simp only [containsSub] at h
    cases p with
    | nil => simpa using containsSub_nil_pat b
    | cons x ps => simp [hasPre] at h
  | cons c tl ih =>
    intro b h
    simp only [containsSub, Bool.or_eq_true] at h
    rcases h with h | h
    · exact containsSub_of_hasPre _ _ (hasPre_mono_append p (c :: tl) b h)
    · exact containsSub_tail _ _ _ (ih b h)

theorem containsSub_append_l (p : List Char) :
    ∀ a b : List Char, containsSub p b = true → containsSub p (a ++ b) = true := by
  intro a
  induction a with
  | nil => intro b h; simpa using h
  | cons c tl ih => intro b h; exact containsSub_tail _ _ _ (ih b h)

theorem containsSub_dropWhile (p : List Char) (q : Char → Bool) :
    ∀ l : List Char, containsSub p (l.dropWhile q) = true → containsSub p l = true := by
  intro l
  induction l with
  | nil => intro h; simpa using h
  | cons c tl ih =>
    intro h
    by_cases hq : q c
    · rw [List.dropWhile_cons, if_pos hq] at h
      exact containsSub_tail _ _ _ (ih h)
    · rwa [List.dropWhile_cons, if_neg hq] at h

theorem containsSub_drop (p : List Char) (n : Nat) (l : List Char) :
    containsSub p (l.drop n) = true → containsSub p l = true := by
  intro h
  have := containsSub_append_l p (l.take n) (l.drop n) h
  rwa [List.take_append_drop] at this

theorem rtrim_append (u : List Char) :
    rtrim u ++ (List.takeWhile isWs u.reverse).reverse = u := by
  unfold rtrim
  rw [← List.reverse_append, List.takeWhile_append_dropWhile, List.reverse_reverse]

theorem containsSub_rtrim (p u : List Char) :
    containsSub p (rtrim u) = true → containsSub p u = true := by
  intro h
  have := containsSub_append_r p (rtrim u) ((List.takeWhile isWs u.reverse).reverse) h
  rwa [rtrim_append] at this

theorem containsSub_trim (p s : List Char) :
    containsSub p (trim s) = true → containsSub p s = true := by
  intro h
  exact containsSub_dropWhile p isWs s (containsSub_rtrim p _ h)

theorem containsSub_trim_false (p s : List Char) :
    containsSub p s = false → containsSub p (trim s) = false := by
  intro h
  cases hc : containsSub p (trim s) with
  | false => rfl
  | true => exact absurd (containsSub_trim p s hc) (by simp [h])

theorem dw_head_false (q : Char → Bool) :
    ∀ (l : List Char) (c : Char) (tl : List Char), l.dropWhile q = c :: tl → q c = false := by
  intro l
  induction l with
  | nil => intro c tl h; simp at h
  | cons a as ih =>
    intro c tl h
    by_cases hq : q a
    · rw [List.dropWhile_cons, if_pos hq] at h
      exact ih c tl h
    · rw [List.dropWhile_cons, if_neg hq] at h
      cases h
      simpa using hq

theorem dw_idem (q : Char → Bool) (l : List Char) :
    (l.dropWhile q).dropWhile q = l.dropWhile q := by
  cases h : l.dropWhile q with
  | nil => rfl
  | cons c tl =>
    have hc := dw_head_false q l c tl h
    rw [List.dropWhile_cons, if_neg (by simp [hc])]

theorem rtrim_idem (v : List Char) : rtrim (rtrim v) = rtrim v := by
  unfold rtrim
  rw [List.reverse_reverse, dw_idem]

theorem dw_rtrim (u : List Char) (hu : u.dropWhile isWs = u) :
    (rtrim u).dropWhile isWs = rtrim u := by
  cases h : rtrim u with
  | nil => rfl
  | cons c tl =>
    have hdec := rtrim_append u
    rw [h] at hdec
    have hu2 : u = c :: (tl ++ (List.takeWhile isWs u.reverse).reverse) := by
      refine hdec.symm.trans ?_
      exact List.cons_append c tl _
    have hc : isWs c = false := by
      apply dw_head_false isWs u c (tl ++ (List.takeWhile isWs u.reverse).reverse)
      rw [hu]
      exact hu2
    rw [List.dropWhile_cons, if_neg (by simp [hc])]

theorem trim_idem (s : List Char) : trim (trim s) = trim s := by
  show rtrim ((rtrim (s.dropWhile isWs)).dropWhile isWs) = rtrim (s.dropWhile isWs)
  rw [dw_rtrim _ (dw_idem isWs s), rtrim_idem]

theorem hasPre_lit1_contains (s : List Char) :
    hasPre lit1 s = true → containsSub chW s = true := by
  intro h
  have hd := hasPre_decomp lit1 s h
  rw [hd]
  show containsSub chW ((']' :: '(' :: '[' :: (chW ++ [']', '('])) ++ s.drop lit1.length) = true
  refine containsSub_tail _ _ _ (containsSub_tail _ _ _ (containsSub_tail _ _ _ ?_))
  simp only [List.append_eq, List.append_assoc]
  exact containsSub_of_hasPre _ _ (hasPre_append_self chW _)

theorem hasPre_lit2_contains (s : List Char) :
    hasPre lit2 s = true → containsSub chW s = true := by
  intro h
  have hd := hasPre_decomp lit2 s h
  rw [hd]
  show containsSub chW (('[' :: (chW ++ [']'])) ++ s.drop lit2.length) = true
  refine containsSub_tail _ _ _ ?_
  simp only [List.append_eq, List.append_assoc]
  exact containsSub_of_hasPre _ _ (hasPre_append_self chW _)

theorem containsSub_cons_false (p : List Char) (c : Char) (tl : List Char) :
    containsSub p (c :: tl) = false →
    hasPre p (c :: tl) = false ∧ containsSub p tl = false := by
  intro h
  simpa [containsSub] using h

theorem tryNested_none_of (s : List Char) :
    containsSub chW s = false → tryNested s = none := by
  induction s with
  | nil => intro _; rfl
  | cons c tl ih =>
    intro h
    obtain ⟨h1, h2⟩ := containsSub_cons_false chW c tl h
    have hp : hasPre lit1 (c :: tl) = false := by
      cases hq : hasPre lit1 (c :: tl) with
      | false => rfl
      | true => exact absurd (hasPre_lit1_contains _ hq) (by simp [h])
    simp only [tryNested, hp, Bool.false_eq_true, if_false]
    by_cases hn : isNl c
    · simp [hn]
    · simp [hn, ih h2]

theorem replaceNestedF_id :
    ∀ (f : Nat) (s : List Char), containsSub chW s = false → replaceNestedF f s = s := by
  intro f
  induction f with
  | zero => intro s _; rfl
  | succ f ih =>
    intro s h
    cases s with
    | nil => rfl
    | cons c tl =>
      have h2 := (containsSub_cons_false chW c tl h).2
      simp only [replaceNestedF, tryNested_none_of tl h2]
      by_cases hc : c = '['
      · simp [hc, ih tl h2]
      · simp [hc, ih tl h2]

theorem removeClickHereF_id :
    ∀ (f : Nat) (s : List Char), containsSub chW s = false → removeClickHereF f s = s := by
  intro f
  induction f with
  | zero => intro s _; rfl
  | succ f ih =>
    intro s h
    cases s with
    | nil => rfl
    | cons c tl =>
      have h2 := (containsSub_cons_false chW c tl h).2
      have hp : hasPre lit2 (c :: tl) = false := by
        cases hq : hasPre lit2 (c :: tl) with
        | false => rfl
        | true => exact absurd (hasPre_lit2_contains _ hq) (by simp [h])
      simp [removeClickHereF, hp, ih tl h2]

theorem clickParen_none_of (s : List Char) :
    containsSub chW s = false → clickParen s = none := by
  intro h
  unfold clickParen
  split
  · rename_i r
    have h2 : containsSub chW r = false := (containsSub_cons_false chW '(' r h).2
    have hp : hasPre chW (r.dropWhile isWs) = false := by
      cases hq : hasPre chW (r.dropWhile isWs) with
      | false => rfl
      | true =>
        have := containsSub_dropWhile chW isWs r (containsSub_of_hasPre _ _ hq)
        exact absurd this (by simp [h2])
    simp [hp]
  · rfl

theorem removeClickParenF_id :
    ∀ (f : Nat) (s : List Char), containsSub chW s = false → removeClickParenF f s = s := by
  intro f
  induction f with
  | zero => intro s _; rfl
  | succ f ih =>
    intro s h
    cases s with
    | nil => rfl
    | cons c tl =>
      have h2 := (containsSub_cons_false chW c tl h).2
      simp [removeClickParenF, clickParen_none_of (c :: tl) h, ih tl h2]

theorem wsParens_none_of (s : List Char) :
    containsSub dpr s = false → wsParens s = none := by
  intro h
  unfold wsParens
  split
  · rename_i r heq
    have hp : hasPre dpr (s.dropWhile isWs) = true := by
      rw [heq]; simp [dpr, hasPre]
    have := containsSub_dropWhile dpr isWs s (containsSub_of_hasPre _ _ hp)
    exact absurd this (by simp [h])
  · rfl

theorem collapseParensF_id :
    ∀ (f : Nat) (s : List Char), containsSub dpr s = false → collapseParensF f s = s := by
  intro f
  induction f with
  | zero => intro s _; rfl
  | succ f ih =>
    intro s h
    cases s with
    | nil => rfl
    | cons c tl =>
      have h2 := (containsSub_cons_false dpr c tl h).2
      simp [collapseParensF, wsParens_none_of (c :: tl) h, ih tl h2]

/-- When neither cleanup pattern can fire, `formatBuffer` is a plain trim. -/
theorem formatBuffer_eq_trim (s : List Char)
    (h1 : containsSub chW s = false) (h2 : containsSub dpr s = false) :
    formatBuffer s = trim s := by
  unfold formatBuffer replaceNested removeClickHere removeClickParen collapseParens
  rw [replaceNestedF_id _ s h1, removeClickHereF_id _ s h1,
    removeClickParenF_id _ s h1, collapseParensF_id _ s h2]

/-- JSON values as produced by `JSON.parse`.  Numbers keep their source
lexeme (their numeric value is never computed by the relay; the lexeme
is enough for the truthiness test the code performs). -/
inductive Json where
  | null : Json
  | bool : Bool → Json
  | num : List Char → Json
  | str : List Char → Json
  | arr : List Json → Json
  | obj : List (List Char × Json) → Json

/-- JSON insignificant whitespace (RFC 8259: space, tab, LF, CR). -/
def isJsonWs (c : Char) : Bool :=
  c = ' ' || c = '\t' || c = '\n' || c = '\r'

def isDigit (c : Char) : Bool := '0' ≤ c && c ≤ '9'

def hexVal (c : Char) : Option Nat :=
  if isDigit c then some (c.toNat - 48)
  else if 'a' ≤ c && c ≤ 'f' then some (c.toNat - 87)
  else if 'A' ≤ c && c ≤ 'F' then some (c.toNat - 55)
  else none

/-- JSON string body parser (after the opening quote): returns the
decoded content and the rest after the closing quote.  Lone surrogate
escapes are approximated by `Char.ofNat`'s fallback; they do not occur
in the payloads the claims are about. -/
def parseStrAux : List Char → Option (List Char × List Char)
  | [] => none
  | '"' :: r => some ([], r)
  | '\\' :: e :: r =>
    match e with
    | '"' => (parseStrAux r).map (fun p => ('"' :: p.1, p.2))
    | '\\' => (parseStrAux r).map (fun p => ('\\' :: p.1, p.2))
    | '/' => (parseStrAux r).map (fun p => ('/' :: p.1, p.2))
    | 'b' => (parseStrAux r).map (fun p => (Char.ofNat 8 :: p.1, p.2))
    | 'f' => (parseStrAux r).map (fun p => (Char.ofNat 12 :: p.1, p.2))
    | 'n' => (parseStrAux r).map (fun p => ('\n' :: p.1, p.2))
    | 'r' => (parseStrAux r).map (fun p => ('\r' :: p.1, p.2))
    | 't' => (parseStrAux r).map (fun p => ('\t' :: p.1, p.2))
    | 'u' =>
      match r with
      | a :: b :: c :: d :: r2 =>
        match hexVal a, hexVal b, hexVal c, hexVal d with
        | some va, some vb, some vc, some vd =>
          (parseStrAux r2).map
            (fun p => (Char.ofNat (va * 4096 + vb * 256 + vc * 16 + vd) :: p.1, p.2))
        | _, _, _, _ => none
      | _ => none
    | _ => none
  | c :: r =>
    if c.toNat < 32 then none
    else (parseStrAux r).map (fun p => (c :: p.1, p.2))

/-- Exponent digits (at least one required). -/
def numDigits1 (lex : List Char) (s : List Char) : Option (Json × List Char) :=
  match s.takeWhile isDigit with
  | [] => none
  | ds => some (Json.num (lex ++ ds), s.dropWhile isDigit)

def numAfterExpMark (lex : List Char) (s : List Char) : Option (Json × List Char) :=
  match s with
  | '+' :: r => numDigits1 (lex ++ ['+']) r
  | '-' :: r => numDigits1 (lex ++ ['-']) r
  | _ => numDigits1 lex s

def numExpPart (lex : List Char) (s : List Char) : Option (Json × List Char) :=
  match s with
  | 'e' :: r => numAfterExpMark (lex ++ ['e']) r
  | 'E' :: r => numAfterExpMark (lex ++ ['E']) r
  | _ => some (Json.num lex, s)

def numFracPart (lex : List Char) (s : List Char) : Option (Json × List Char) :=
  match s with
  | '.' :: r =>
    match r.takeWhile isDigit with
    | [] => none
    | ds => numExpPart (lex ++ '.' :: ds) (r.dropWhile isDigit)
  | _ => numExpPart lex s

def parseNumBody (neg : List Char) (s : List Char) : Option (Json × List Char) :=
  match s with
  | '0' :: r => numFracPart (neg ++ ['0']) r
  | c :: r =>
    if isDigit c && c ≠ '0' then
      numFracPart (neg ++ c :: r.takeWhile isDigit) (r.dropWhile isDigit)
    else none
  | [] => none

/-- JSON number parser following the RFC 8259 grammar; the lexeme is kept. -/
def parseNum (s : List Char) : Option (Json × List Char) :=
  match s with
  | '-' :: r => parseNumBody ['-'] r
  | _ => parseNumBody [] s

mutual

/-- JSON value parser.  The fuel argument only makes the mutual
recursion structural; `2 * length + 2` fuel is always enough because
every other call consumes at least one character. -/
def parseVal : Nat → List Char → Option (Json × List Char)
  | 0, _ => none
  | Nat.succ f, s =>
    match s.dropWhile isJsonWs with
    | 'n' :: 'u' :: 'l' :: 'l' :: r => some (Json.null, r)
    | 't' :: 'r' :: 'u' :: 'e' :: r => some (Json.bool true, r)
    | 'f' :: 'a' :: 'l' :: 's' :: 'e' :: r => some (Json.bool false, r)
    | '"' :: r => (parseStrAux r).map (fun p => (Json.str p.1, p.2))
    | '[' :: r =>
      match r.dropWhile isJsonWs with
      | ']' :: r2 => some (Json.arr [], r2)
      | r1 => (parseElems f r1).map (fun p => (Json.arr p.1, p.2))
    | '{' :: r =>
      match r.dropWhile isJsonWs with
      | '}' :: r2 => some (Json.obj [], r2)
      | r1 => (parseMembers f r1).map (fun p => (Json.obj p.1, p.2))
    | s1 => parseNum s1

def parseElems : Nat → List Char → Option (List Json × List Char)
  | 0, _ => none
  | Nat.succ f, s =>
    match parseVal f s with
    | none => none
    | some (j, r) =>
      match r.dropWhile isJsonWs with
      | ',' :: r2 => (parseElems f r2).map (fun p => (j :: p.1, p.2))
      | ']' :: r2 => some ([j], r2)
      | _ => none

def parseMembers : Nat → List Char → Option (List (List Char × Json) × List Char)
  | 0, _ => none
  | Nat.succ f, s =>
    match s.dropWhile isJsonWs with
    | '"' :: r =>
      match parseStrAux r with
      | none => none
      | some (k, r1) =>
        match r1.dropWhile isJsonWs with
        | ':' :: r2 =>
          match parseVal f r2 with
          | none => none
          | some (v, r3) =>
            match r3.dropWhile isJsonWs with
            | ',' :: r4 => (parseMembers f r4).map (fun p => ((k, v) :: p.1, p.2))
            | '}' :: r4 => some ([(k, v)], r4)
            | _ => none
        | _ => none
    | _ => none

end

/-- `JSON.parse`: a complete value with only trailing whitespace allowed. -/
def parseJson (s : List Char) : Option Json :=
  match parseVal (2 * s.length + 2) s with
  | some (j, r) => if r.dropWhile isJsonWs = [] then some j else none
  | none => none

example : parseJson (lstr "\x7b\"a\":1\x7d") =
    some (Json.obj [(['a'], Json.num ['1'])]) := by rfl

example : parseJson (lstr "f(g(x)) \x7d") = none := by rfl

example : parseJson (lstr "\x7d.") = none := by rfl

example : parseJson (lstr "\x7b") = none := by rfl

example : parseJson (lstr " [1, true, \"x\", null, -2.5e3] ") =
    some (Json.arr [Json.num ['1'], Json.bool true, Json.str ['x'], Json.null,
      Json.num ['-', '2', '.', '5', 'e', '3']]) := by rfl

/-- Object member lookup.  `JSON.parse` keeps the last occurrence of a
duplicated key, so the lookup prefers later members. -/
def assocLast : List (List Char × Json) → List Char → Option Json
  | [], _ => none
  | (k, v) :: tl, key =>
    match assocLast tl key with
    | some v2 => some v2
    | none => if k = key then some v else none

/-- JavaScript property access `j.key` on a parsed JSON value: `none`
models `undefined` (non-objects have no own properties of interest). -/
def jGet : Json → List Char → Option Json
  | Json.obj kvs, key => assocLast kvs key
  | _, _ => none

/-- JavaScript truthiness of a JSON value.  A number is falsy exactly
when its mantissa has no nonzero digit (`0`, `-0`, `0.00`, `0e9`). -/
def truthy : Json → Bool
  | Json.null => false
  | Json.bool b => b
  | Json.num lex =>
    (lex.takeWhile (fun c => c ≠ 'e' && c ≠ 'E')).any (fun c => '1' ≤ c && c ≤ '9')
  | Json.str s => !s.isEmpty
  | Json.arr _ => true
  | Json.obj _ => true

/-- Truthiness of a property that may be absent (`undefined` is falsy). -/
def truthyO : Option Json → Bool
  | none => false
  | some j => truthy j

mutual

/-- JavaScript string coercion of a JSON value, as used by the template
literals and `+` in the Markdown rendering.  Number lexemes are kept
verbatim (JS renormalizes, e.g. `1.50` prints as `1.5`; the payloads the
relay renders carry strings, where coercion is the identity). -/
def jsCoeV : Json → List Char
  | Json.null => lstr "null"
  | Json.bool true => lstr "true"
  | Json.bool false => lstr "false"
  | Json.num lex => lex
  | Json.str s => s
  | Json.arr l => jsCoeArr l
  | Json.obj _ => lstr "[object Object]"

/-- `Array.prototype.toString`: elements joined with commas, null
printing as the empty string. -/
def jsCoeArr : List Json → List Char
  | [] => []
  | [Json.null] => []
  | [j] => jsCoeV j
  | Json.null :: tl => ',' :: jsCoeArr tl
  | j :: tl => jsCoeV j ++ ',' :: jsCoeArr tl

end

/-- Coercion of a property that may be absent: `undefined` prints as the
string `undefined`. -/
def jsCoeO : Option Json → List Char
  | none => lstr "undefined"
  | some j => jsCoeV j

/-- Digits to the natural number they denote in decimal. -/
def natOfDigits (ds : List Char) : Nat :=
  ds.foldl (fun acc c => 10 * acc + (c.toNat - 48)) 0

def numExpDigits (s : List Char) : Option Int :=
  match s.takeWhile isDigit with
  | [] => none
  | ds => if s.dropWhile isDigit = [] then some ((natOfDigits ds : Nat) : Int) else none

def numExpSigned : List Char → Option Int
  | '+' :: r => numExpDigits r
  | '-' :: r => (numExpDigits r).map (fun n => -n)
  | r => numExpDigits r

def numExpVal : List Char → Option Int
  | [] => some 0
  | 'e' :: r => numExpSigned r
  | 'E' :: r => numExpSigned r
  | _ => none

def numLexMag (s : List Char) : Option (Nat × Int) :=
  match s.takeWhile isDigit with
  | [] => none
  | ds =>
    match s.dropWhile isDigit with
    | '.' :: r2 =>
      match r2.takeWhile isDigit with
      | [] => none
      | fs =>
        (numExpVal (r2.dropWhile isDigit)).map
          (fun e => (natOfDigits (ds ++ fs), e - (fs.length : Int)))
    | rest => (numExpVal rest).map (fun e => (natOfDigits ds, e))

/-- Numeric value of a decimal lexeme as a scaled-integer pair `(m, e)`
denoting `m * 10 ^ e`; `none` when the text is not a plain decimal
number.  This approximates the JS `Number()` grammar by the JSON number
grammar with leading zeros allowed; exotic forms (leading `+`, bare
leading dot, hexadecimal, `Infinity`) are not modelled and compare as
NaN. -/
def numLexVal (lex : List Char) : Option (Int × Int) :=
  match lex with
  | '-' :: r => (numLexMag r).map (fun p => (-(p.1 : Int), p.2))
  | _ => (numLexMag lex).map (fun p => ((p.1 : Int), p.2))

/-- `Number(string)`: whitespace-trimmed; empty is 0; otherwise the
decimal value, NaN (`none`) on anything else. -/
def strToNum (s : List Char) : Option (Int × Int) :=
  match trim s with
  | [] => some (0, 0)
  | t => numLexVal t

/-- JS `ToNumber` of a parsed JSON value (`none` is NaN): numbers keep
their lexeme value, booleans and null as usual, strings via `Number()`,
arrays via their string coercion, objects coerce to the string
`[object Object]`, hence NaN. -/
def jsToNum : Json → Option (Int × Int)
  | Json.num lex => numLexVal lex
  | Json.bool true => some (1, 0)
  | Json.bool false => some (0, 0)
  | Json.null => some (0, 0)
  | Json.str s => strToNum s
  | Json.arr l => strToNum (jsCoeArr l)
  | Json.obj _ => strToNum (lstr "[object Object]")

/-- Exact comparison `m * 10 ^ e > n`. -/
def numCmpGt (m : Int) (e : Int) (n : Nat) : Bool :=
  if 0 ≤ e then decide ((n : Int) < m * (10 : Int) ^ e.toNat)
  else decide ((n : Int) * (10 : Int) ^ (-e).toNat < m)

/-- The value of the `.length` property of a parsed JSON value: a real
JS number (strings and arrays), an explicit `length` member of an
object, or undefined. -/
inductive LenV where
  | num : Nat → LenV
  | memb : Json → LenV
  | undef : LenV

def jsLenVal : Json → LenV
  | Json.str s => LenV.num s.length
  | Json.arr l => LenV.num l.length
  | Json.obj kvs =>
    match assocLast kvs (lstr "length") with
    | some j => LenV.memb j
    | none => LenV.undef
  | _ => LenV.undef

/-- JS comparison `x.length > n`: a numeric length compares exactly;
`undefined` compares false (NaN); an explicit member value goes through
`ToNumber`, NaN comparing false. -/
def jsGtN : LenV → Nat → Bool
  | LenV.num m, n => decide (n < m)
  | LenV.undef, _ => false
  | LenV.memb j, n =>
    match jsToNum j with
    | none => false
    | some p => numCmpGt p.1 p.2 n

/-- JS index access `x[0]`: first character of a string (as a one-char
string), head of an array, the `"0"` member of an object; otherwise
undefined. -/
def jsIndex0 : Json → Option Json
  | Json.str (c :: _) => some (Json.str [c])
  | Json.str [] => none
  | Json.arr (x :: _) => some x
  | Json.arr [] => none
  | Json.obj kvs => assocLast kvs (lstr "0")
  | _ => none

/-- Reading a property of `null` (or of `undefined`) throws a TypeError;
every other value can be dereferenced (possibly yielding undefined). -/
def nonNullB : Json → Bool
  | Json.null => false
  | _ => true

/-- One bullet line `* [text](url)` for a non-first step link. -/
def renderLink (link : Json) : List Char :=
  lstr "* [" ++ jsCoeO (jGet link (lstr "text")) ++ lstr "](" ++
    jsCoeO (jGet link (lstr "url")) ++ lstr ")\n"

/-- The links block of one step on schema-conformant input (links absent,
falsy, or an array of non-null elements): first link inline after
`Helpful links:`, remaining links as bullet lines.  `renderLinks?` below
is the full model including the throwing cases and agrees with this
function wherever `linksOkOf` holds. -/
def renderLinks (step : Json) : List Char :=
  match jGet step (lstr "links") with
  | some (Json.arr (l0 :: rest)) =>
    lstr "\nHelpful links: [" ++ jsCoeO (jGet l0 (lstr "text")) ++ lstr "](" ++
      jsCoeO (jGet l0 (lstr "url")) ++ lstr ")" ++
      (if rest.isEmpty then lstr "\n" else lstr "\n" ++ (rest.map renderLink).flatten)
  | _ => []

/-- One step: numbered bold title line, indented description line, links
block, trailing newline. -/
def renderStep (i : Nat) (step : Json) : List Char :=
  lstr "**" ++ lstr (toString (i + 1)) ++ lstr ". " ++
    jsCoeO (jGet step (lstr "title")) ++ lstr "**\n    " ++
    jsCoeO (jGet step (lstr "description")) ++ lstr "\n" ++
    renderLinks step ++ lstr "\n"

/-- The `forEach((step, index) => ...)` body, starting at index `i`. -/
def renderStepsFrom : Nat → List Json → List Char
  | _, [] => []
  | i, s :: tl => renderStep i s ++ renderStepsFrom (i + 1) tl

def renderSteps (r : Json) : List Char :=
  match jGet r (lstr "steps") with
  | some (Json.arr steps) =>
    if steps.isEmpty then [] else renderStepsFrom 0 steps
  | _ => []

def renderSource (src : Json) : List Char :=
  lstr "* [" ++ jsCoeO (jGet src (lstr "name")) ++ lstr "](" ++
    jsCoeO (jGet src (lstr "url")) ++ lstr ")\n"

def renderSources (r : Json) : List Char :=
  match jGet r (lstr "sources") with
  | some (Json.arr srcs) =>
    if srcs.isEmpty then []
    else lstr "---\n\n**Sources:**\n" ++ (srcs.map renderSource).flatten
  | _ => []

/-- The deterministic Markdown rendering of a structured `response`
object, lines 195-230 of src/index.ts, on schema-conformant input
(`responseOk`); `renderMarkdown?` below extends it with the throwing
cases and agrees with it wherever `responseOk` holds. -/
def renderMarkdown (r : Json) : List Char :=
  jsCoeO (jGet r (lstr "mainAnswer")) ++ lstr "\n\n" ++ renderSteps r ++ renderSources r

/-- Bullet lines for `links.slice(1).forEach(...)`: a null element makes
`link.text` throw (`none`). -/
def renderLinkList? : List Json → Option (List Char)
  | [] => some []
  | l :: tl =>
    if nonNullB l then (renderLinkList? tl).map (fun x => renderLink l ++ x)
    else none

/-- The links block with the exception behaviour of the source: the
guard is `step.links && step.links.length > 0` (JS truthiness and
coercing comparison); `step.links[0]` undefined or null makes `.text`
throw; when `length > 1`, `.slice(1).forEach` throws on every non-array
(a truthy string of length 1 renders `[undefined](undefined)` without
throwing). -/
def renderLinks? (step : Json) : Option (List Char) :=
  match jGet step (lstr "links") with
  | none => some []
  | some v =>
    if truthy v && jsGtN (jsLenVal v) 0 then
      match jsIndex0 v with
      | none => none
      | some l0 =>
        if !nonNullB l0 then none
        else if jsGtN (jsLenVal v) 1 then
          match v with
          | Json.arr (_ :: rest) =>
            (renderLinkList? rest).map (fun bl =>
              lstr "\nHelpful links: [" ++ jsCoeO (jGet l0 (lstr "text")) ++ lstr "](" ++
                jsCoeO (jGet l0 (lstr "url")) ++ lstr ")" ++ (lstr "\n" ++ bl))
          | _ => none
        else
          some (lstr "\nHelpful links: [" ++ jsCoeO (jGet l0 (lstr "text")) ++ lstr "](" ++
            jsCoeO (jGet l0 (lstr "url")) ++ lstr ")" ++ lstr "\n")
    else some []

/-- One step with exception behaviour: a null step element makes
`step.title` throw; otherwise only the links block can throw. -/
def renderStep? (i : Nat) (step : Json) : Option (List Char) :=
  if !nonNullB step then none
  else
    (renderLinks? step).map (fun lk =>
      lstr "**" ++ lstr (toString (i + 1)) ++ lstr ". " ++
        jsCoeO (jGet step (lstr "title")) ++ lstr "**\n    " ++
        jsCoeO (jGet step (lstr "description")) ++ lstr "\n" ++ (lk ++ lstr "\n"))

def renderStepsFrom? : Nat → List Json → Option (List Char)
  | _, [] => some []
  | i, s :: tl =>
    match renderStep? i s with
    | none => none
    | some x => (renderStepsFrom? (i + 1) tl).map (fun y => x ++ y)

/-- The steps block with exception behaviour: when the guard
`response.steps && response.steps.length > 0` passes, `.forEach` throws
a TypeError on every non-array value (for example a nonempty string),
which the rendering try block catches, so nothing is emitted. -/
def renderSteps? (r : Json) : Option (List Char) :=
  match jGet r (lstr "steps") with
  | none => some []
  | some v =>
    if truthy v && jsGtN (jsLenVal v) 0 then
      match v with
      | Json.arr steps => renderStepsFrom? 0 steps
      | _ => none
    else some []

def renderSourceList? : List Json → Option (List Char)
  | [] => some []
  | s :: tl =>
    if nonNullB s then (renderSourceList? tl).map (fun x => renderSource s ++ x)
    else none

/-- The sources block with exception behaviour, analogous to the steps
block (`forEach` on a truthy non-array with positive length throws; the
header appended before the throw is discarded with the rest because
nothing is written until rendering completes). -/
def renderSources? (r : Json) : Option (List Char) :=
  match jGet r (lstr "sources") with
  | none => some []
  | some v =>
    if truthy v && jsGtN (jsLenVal v) 0 then
      match v with
      | Json.arr srcs =>
        (renderSourceList? srcs).map (fun x => lstr "---\n\n**Sources:**\n" ++ x)
      | _ => none
    else some []

/-- The whole Markdown construction of the structured branch with
exception behaviour: `none` models a TypeError thrown while building
`formattedMarkdown`, which the catch at line 243 receives before any
write happens. -/
def renderMarkdown? (r : Json) : Option (List Char) :=
  match renderSteps? r with
  | none => none
  | some stepsMd =>
    match renderSources? r with
    | none => none
    | some srcMd =>
      some (jsCoeO (jGet r (lstr "mainAnswer")) ++ lstr "\n\n" ++ (stepsMd ++ srcMd))

/-- Link values of a step that do not make the rendering throw: absent,
falsy, or an array of non-null elements. -/
def linksOkOf : Option Json → Bool
  | none => true
  | some (Json.arr l) => l.all nonNullB
  | some v => !truthy v

/-- A step element that renders without throwing. -/
def stepOk (s : Json) : Bool :=
  nonNullB s && linksOkOf (jGet s (lstr "links"))

/-- A `steps` value that renders without throwing. -/
def stepsOk (r : Json) : Bool :=
  match jGet r (lstr "steps") with
  | none => true
  | some (Json.arr l) => l.all stepOk
  | some v => !truthy v

/-- A `sources` value that renders without throwing. -/
def sourcesOk (r : Json) : Bool :=
  match jGet r (lstr "sources") with
  | none => true
  | some (Json.arr l) => l.all nonNullB
  | some v => !truthy v

/-- A `response` value on which the Markdown construction completes
(the StructuredAnswer schema of the spec lies inside this set). -/
def responseOk (r : Json) : Bool := stepsOk r && sourcesOk r

theorem renderLinkList_all :
    ∀ l : List Json, l.all nonNullB = true →
      renderLinkList? l = some ((l.map renderLink).flatten) := by
  intro l
  induction l with
  | nil => intro _; rfl
  | cons x tl ih =>
    intro h
    simp only [List.all_cons, Bool.and_eq_true] at h
    simp [renderLinkList?, h.1, ih h.2]

theorem renderSourceList_all :
    ∀ l : List Json, l.all nonNullB = true →
      renderSourceList? l = some ((l.map renderSource).flatten) := by
  intro l
  induction l with
  | nil => intro _; rfl
  | cons x tl ih =>
    intro h
    simp only [List.all_cons, Bool.and_eq_true] at h
    simp [renderSourceList?, h.1, ih h.2]

/-- On link values satisfying `linksOkOf` the throwing links renderer
completes and agrees with the schema-level one. -/
theorem renderLinks_ok (s : Json) (h : linksOkOf (jGet s (lstr "links")) = true) :
    renderLinks? s = some (renderLinks s) := by
  rcases hv : jGet s (lstr "links") with _ | v
  · simp [renderLinks?, renderLinks, hv]
  · unfold linksOkOf at h
    rw [hv] at h
    cases v with
    | null =>
      simp [renderLinks?, renderLinks, hv, truthy]
    | bool b =>
      have hf : truthy (Json.bool b) = false := by simpa using h
      simp [renderLinks?, renderLinks, hv, hf]
    | num a =>
      have hf : truthy (Json.num a) = false := by simpa using h
      simp [renderLinks?, renderLinks, hv, hf]
    | str a =>
      have hf : truthy (Json.str a) = false := by simpa using h
      simp [renderLinks?, renderLinks, hv, hf]
    | obj a =>
      have hf : truthy (Json.obj a) = false := by simpa using h
      simp [renderLinks?, renderLinks, hv, hf]
    | arr l =>
      cases l with
      | nil => simp [renderLinks?, renderLinks, hv, truthy, jsLenVal, jsGtN]
      | cons l0 rest =>
        have h2 : nonNullB l0 = true ∧ rest.all nonNullB = true := by
          simpa [List.all_cons] using h
        have hgt0 : jsGtN (jsLenVal (Json.arr (l0 :: rest))) 0 = true := by
          simp only [jsLenVal, jsGtN, List.length_cons, decide_eq_true_eq]
          omega
        cases rest with
        | nil =>
          have hgt1 : jsGtN (jsLenVal (Json.arr [l0])) 1 = false := by
            simp [jsLenVal, jsGtN]
          simp [renderLinks?, renderLinks, hv, truthy, hgt0, hgt1, jsIndex0, h2.1]
        | cons y ys =>
          have hgt1 : jsGtN (jsLenVal (Json.arr (l0 :: y :: ys))) 1 = true := by
            simp only [jsLenVal, jsGtN, List.length_cons, decide_eq_true_eq]
            omega
          simp [renderLinks?, renderLinks, hv, truthy, hgt0, hgt1, jsIndex0, h2.1,
            renderLinkList_all _ h2.2]

theorem renderStep_ok (i : Nat) (s : Json) (h : stepOk s = true) :
    renderStep? i s = some (renderStep i s) := by
  simp only [stepOk, Bool.and_eq_true] at h
  simp [renderStep?, renderStep, h.1, renderLinks_ok s h.2]

theorem renderStepsFrom_ok :
    ∀ (l : List Json) (i : Nat), l.all stepOk = true →
      renderStepsFrom? i l = some (renderStepsFrom i l) := by
  intro l
  induction l with
  | nil => intro i _; rfl
  | cons x tl ih =>
    intro i h
    simp only [List.all_cons, Bool.and_eq_true] at h
    simp [renderStepsFrom?, renderStepsFrom, renderStep_ok i x h.1, ih (i + 1) h.2]

/-- On a `steps` value satisfying `stepsOk` the throwing steps renderer
completes and agrees with the schema-level one. -/
theorem renderSteps_ok (r : Json) (h : stepsOk r = true) :
    renderSteps? r = some (renderSteps r) := by
  unfold stepsOk at h
  rcases hv : jGet r (lstr "steps") with _ | v
  · simp [renderSteps?, renderSteps, hv]
  · rw [hv] at h
    cases v with
    | null => simp [renderSteps?, renderSteps, hv, truthy]
    | bool b =>
      have hf : truthy (Json.bool b) = false := by simpa using h
      simp [renderSteps?, renderSteps, hv, hf]
    | num a =>
      have hf : truthy (Json.num a) = false := by simpa using h
      simp [renderSteps?, renderSteps, hv, hf]
    | str a =>
      have hf : truthy (Json.str a) = false := by simpa using h
      simp [renderSteps?, renderSteps, hv, hf]
    | obj a =>
      have hf : truthy (Json.obj a) = false := by simpa using h
      simp [renderSteps?, renderSteps, hv, hf]
    | arr l =>
      cases l with
      | nil => simp [renderSteps?, renderSteps, hv, truthy, jsLenVal, jsGtN]
      | cons x tl =>
        have hgt0 : jsGtN (jsLenVal (Json.arr (x :: tl))) 0 = true := by
          simp only [jsLenVal, jsGtN, List.length_cons, decide_eq_true_eq]
          omega
        have h2 : (x :: tl).all stepOk = true := by simpa using h
        simp [renderSteps?, renderSteps, hv, truthy, hgt0,
          renderStepsFrom_ok (x :: tl) 0 h2]

/-- On a `sources` value satisfying `sourcesOk` the throwing sources
renderer completes and agrees with the schema-level one. -/
theorem renderSources_ok (r : Json) (h : sourcesOk r = true) :
    renderSources? r = some (renderSources r) := by
  unfold sourcesOk at h
  rcases hv : jGet r (lstr "sources") with _ | v
  · simp [renderSources?, renderSources, hv]
  · rw [hv] at h
    cases v with
    | null => simp [renderSources?, renderSources, hv, truthy]
    | bool b =>
      have hf : truthy (Json.bool b) = false := by simpa using h
      simp [renderSources?, renderSources, hv, hf]
    | num a =>
      have hf : truthy (Json.num a) = false := by simpa using h
      simp [renderSources?, renderSources, hv, hf]
    | str a =>
      have hf : truthy (Json.str a) = false := by simpa using h
      simp [renderSources?, renderSources, hv, hf]
    | obj a =>
      have hf : truthy (Json.obj a) = false := by simpa using h
      simp [renderSources?, renderSources, hv, hf]
    | arr l =>
      cases l with
      | nil => simp [renderSources?, renderSources, hv, truthy, jsLenVal, jsGtN]
      | cons x tl =>
        have hgt0 : jsGtN (jsLenVal (Json.arr (x :: tl))) 0 = true := by
          simp only [jsLenVal, jsGtN, List.length_cons, decide_eq_true_eq]
          omega
        have h2 : (x :: tl).all nonNullB = true := by simpa using h
        simp [renderSources?, renderSources, hv, truthy, hgt0,
          renderSourceList_all (x :: tl) h2]

/-- On a `response` satisfying `responseOk` the Markdown construction
throws nothing and produces exactly the deterministic rendering. -/
theorem renderMarkdown_ok (r : Json) (h : responseOk r = true) :
    renderMarkdown? r = some (renderMarkdown r) := by
  simp only [responseOk, Bool.and_eq_true] at h
  simp [renderMarkdown?, renderMarkdown, renderSteps_ok r h.1, renderSources_ok r h.2]

example : renderSteps? (Json.obj [(lstr "steps", Json.str (lstr "abc"))]) = none := by rfl

example : renderLinks? (Json.obj [(lstr "links", Json.str (lstr "x"))]) =
    some (lstr "\nHelpful links: [undefined](undefined)\n") := by rfl

example : renderLinks? (Json.obj [(lstr "links", Json.str (lstr "abc"))]) = none := by rfl

example : renderSources? (Json.obj [(lstr "sources", Json.str (lstr "abc"))]) = none := by rfl

/-- `buffer.match(/[.!?]\s*$/)`: after discarding trailing whitespace the
buffer ends with sentence-terminal punctuation. -/
def endsPunct (b : List Char) : Bool :=
  match b.reverse.dropWhile isWs with
  | [] => false
  | c :: _ => c = '.' || c = '!' || c = '?'

/-- `stepCount = response.steps ? response.steps.length : 0`: the number
0 for falsy steps, otherwise the value of the `.length` property (a JS
number for arrays; undefined, or an explicit `length` member, for other
truthy values that survive rendering). -/
def stepCountOf (r : Json) : LenV :=
  match jGet r (lstr "steps") with
  | none => LenV.num 0
  | some v => if truthy v then jsLenVal v else LenV.num 0

/-- Error payloads of outbound `{"error": ...}` events.  The history
constructor stands for the engine-specific exception message raised
while decoding the `history` query parameter (its exact text is
environment-defined and not modelled). -/
inductive ErrMsg where
  | apiKeyMissing : ErrMsg
  | streamErr : ErrMsg
  | historyParse : List Char → ErrMsg

/-- Outbound SSE events: `{"token": ...}`, `{"structured": ...}`,
`{"error": ...}` and the literal `[DONE]` sentinel frame. -/
inductive Event where
  | token : List Char → Event
  | structured : Json → Event
  | error : ErrMsg → Event
  | done : Event

/-- Per-call reassembler state of the canonical variant: the buffer and
the three flags declared at lines 144-147 of src/index.ts
(`stepCount` starts as the number 0 and receives whatever value
`response.steps ? response.steps.length : 0` computes). -/
structure RState where
  buffer : List Char
  hasMainAnswer : Bool
  stepCount : LenV
  hasShownSources : Bool

def rInit : RState := ⟨[], false, LenV.num 0, false⟩

/-- The catch branch of the structured attempt (lines 243-252 of
src/index.ts): reached on a `JSON.parse` failure or on a TypeError
thrown while building the Markdown; flushes the cleaned buffer when the
sentence/paragraph heuristic fires, otherwise keeps accumulating. -/
def catchFlush (st : RState) (b : List Char) : RState × List Event :=
  if endsPunct b || containsSub ['\n', '\n'] b then
    ({ st with buffer := [] },
     if trim (formatBuffer b) = [] then []
     else [Event.token (formatBuffer b)])
  else ({ st with buffer := b }, [])

/-- The token branch of the canonical data handler (lines 181-253 of
src/index.ts): append the delta; if the buffer contains `}` try to
parse it as JSON; on success with a truthy `response` build the
Markdown — if that throws, fall into the catch branch; otherwise emit
the rendered Markdown and the raw structured object, reset the buffer
and set the flags.  A parse failure also goes to the catch branch.  An
empty (falsy) token is a no-op. -/
def ingest (st : RState) (t : List Char) : RState × List Event :=
  if t = [] then (st, [])
  else
    if (st.buffer ++ t).any (fun c => c = '}') then
      match parseJson (st.buffer ++ t) with
      | some j =>
        match jGet j (lstr "response") with
        | some r =>
          if truthy r then
            match renderMarkdown? r with
            | some md =>
              ({ buffer := [], hasMainAnswer := true, stepCount := stepCountOf r,
                 hasShownSources := true },
               [Event.token md, Event.structured r])
            | none => catchFlush st (st.buffer ++ t)
          else ({ st with buffer := st.buffer ++ t }, [])
        | none => ({ st with buffer := st.buffer ++ t }, [])
      | none => catchFlush st (st.buffer ++ t)
    else ({ st with buffer := st.buffer ++ t }, [])

example :
    stepCountOf (Json.obj [(lstr "steps", Json.obj [])]) = LenV.undef := by rfl

/-- Feed a sequence of deltas to `ingest`, collecting emitted events. -/
def runIngest : RState → List (List Char) → RState × List Event
  | st, [] => (st, [])
  | st, d :: ds =>
    match ingest st d with
    | (st1, evs1) =>
      match runIngest st1 ds with
      | (st2, evs2) => (st2, evs1 ++ evs2)

/-- The end handler (lines 277-284): flush the remaining buffer with a
bare `.trim()` (not `formatBuffer`), then emit the Done sentinel. -/
def finalizeEvents (st : RState) : List Event :=
  (if trim st.buffer = [] then [] else [Event.token (trim st.buffer)]) ++ [Event.done]

/-- Concatenation of all token payloads of an event list. -/
def tokenConcat : List Event → List Char
  | [] => []
  | Event.token s :: tl => s ++ tokenConcat tl
  | _ :: tl => tokenConcat tl

/-- `\n{2,}` collapsed to a single newline (V0 cleanup, first replace). -/
def collapseNlRunsF : Nat → List Char → List Char
  | 0, s => s
  | Nat.succ _f, [] => []
  | Nat.succ f, a :: tl =>
    match tl with
    | b :: tl2 =>
      if a = '\n' && b = '\n' then
        '\n' :: collapseNlRunsF f (tl2.dropWhile (fun c => c = '\n'))
      else a :: collapseNlRunsF f tl
    | [] => [a]

def collapseNlRuns (s : List Char) : List Char := collapseNlRunsF s.length s

/-- `\s{2,}` collapsed to a single space (V0 cleanup, second replace). -/
def collapseWsRunsF : Nat → List Char → List Char
  | 0, s => s
  | Nat.succ _f, [] => []
  | Nat.succ f, a :: tl =>
    match tl with
    | b :: tl2 =>
      if isWs a && isWs b then
        ' ' :: collapseWsRunsF f (tl2.dropWhile isWs)
      else a :: collapseWsRunsF f tl
    | [] => [a]

def collapseWsRuns (s : List Char) : List Char := collapseWsRunsF s.length s

/-- The V0 cleanup applied before a flush:
`.replace(/\n{2,}/g, '\n').replace(/\s{2,}/g, ' ').trim()`. -/
def cleanV0 (b : List Char) : List Char := trim (collapseWsRuns (collapseNlRuns b))

/-- The token branch of the plain-text variant with the length threshold
(src/unnamed/part_000, lines 141-155): flush when the buffer ends in
sentence punctuation or exceeds 100 characters; the buffer is cleared
only when the cleaned token is nonempty. -/
def ingestV0 (b t : List Char) : List Char × List Event :=
  if t = [] then (b, [])
  else
    if endsPunct (b ++ t) = true ∨ 100 < (b ++ t).length then
      if cleanV0 (b ++ t) = [] then (b ++ t, [])
      else ([], [Event.token (cleanV0 (b ++ t))])
    else (b ++ t, [])

example : (ingest rInit (lstr "Hello world.")).2 = [] := by rfl

example : (ingest rInit (lstr "Hello world.")).1.buffer = lstr "Hello world." := by decide

example :
    (ingest rInit (lstr "\x7b\"response\":\x7b\"mainAnswer\":\"A\",\"steps\":\"abc\"\x7d\x7d")).2 =
      [] := by rfl

example :
    (ingest rInit (lstr "\x7b\"response\":\x7b\"mainAnswer\":\"A\",\"steps\":\"abc\"\x7d\x7d")).1.buffer =
      lstr "\x7b\"response\":\x7b\"mainAnswer\":\"A\",\"steps\":\"abc\"\x7d\x7d" := by decide

example : (ingestV0 [] (lstr "Hello world.")).2 = [Event.token (lstr "Hello world.")] := by rfl

example :
    (runIngest rInit [lstr "\x7b\"response\":\x7b\"mainAnswer\":\"Yes.\",\"language\":\"en\"\x7d\x7d", lstr "\x7d."]).2 =
      [Event.token (lstr "Yes.\n\n"),
       Event.structured (Json.obj [(lstr "mainAnswer", Json.str (lstr "Yes.")),
         (lstr "language", Json.str (lstr "en"))]),
       Event.token (lstr "\x7d.")] := by rfl

/-- The outbound response channel: events written so far, and whether
`res.end()` has been called.  A write after end does not reach the wire
(Node fails such writes with ERR_STREAM_WRITE_AFTER_END), so `emit` on a
closed channel is dropped. -/
structure Chan where
  events : List Event
  closed : Bool

def chanInit : Chan := ⟨[], false⟩

def emit (ch : Chan) (e : Event) : Chan :=
  if ch.closed then ch else ⟨ch.events ++ [e], ch.closed⟩

def emitAll (ch : Chan) (es : List Event) : Chan := es.foldl emit ch

def closeCh (ch : Chan) : Chan := ⟨ch.events, true⟩

/-- The payload of one upstream line after `slice(5).trim()`, with the
provider-frame JSON classified the way the data handler distinguishes
it: empty, the `[DONE]` sentinel, unparsable JSON, a parsed frame
without a (truthy) `choices[0].delta.content`, or a frame carrying a
content delta. -/
inductive Payload where
  | empty : Payload
  | done : Payload
  | malformed : Payload
  | noToken : Payload
  | token : List Char → Payload

/-- One line of an upstream chunk: blank (skipped by `line.trim()`),
without the `data: ` marker (skipped), or a data line. -/
inductive UpLine where
  | blank : UpLine
  | nonData : UpLine
  | dataLine : Payload → UpLine

/-- The flush performed on an empty/`[DONE]` payload (lines 157-168 of
src/index.ts): when the buffer is nonblank, emit `formatBuffer(buffer)`
if it is nonblank and clear the buffer. -/
def flushPending (st : RState) (ch : Chan) : RState × Chan :=
  if trim st.buffer = [] then (st, ch)
  else
    ({ st with buffer := [] },
     if trim (formatBuffer st.buffer) = [] then ch
     else emit ch (Event.token (formatBuffer st.buffer)))

/-- The data handler body over the lines of one chunk.  A `[DONE]`
payload writes the sentinel, ends the response and returns from the
handler, skipping the remaining lines of that chunk. -/
def procLines : RState → Chan → List UpLine → RState × Chan
  | st, ch, [] => (st, ch)
  | st, ch, UpLine.blank :: tl => procLines st ch tl
  | st, ch, UpLine.nonData :: tl => procLines st ch tl
  | st, ch, UpLine.dataLine Payload.empty :: tl =>
    match flushPending st ch with
    | (st1, ch1) => procLines st1 ch1 tl
  | st, ch, UpLine.dataLine Payload.done :: _ =>
    match flushPending st ch with
    | (st1, ch1) => (st1, closeCh (emit ch1 Event.done))
  | st, ch, UpLine.dataLine Payload.malformed :: tl => procLines st ch tl
  | st, ch, UpLine.dataLine Payload.noToken :: tl => procLines st ch tl
  | st, ch, UpLine.dataLine (Payload.token s) :: tl =>
    match ingest st s with
    | (st1, evs) => procLines st1 (emitAll ch evs) tl

/-- Each upstream `data` callback processes one chunk; the stream keeps
delivering chunks even after the response was ended (writes are then
dropped, state updates still happen). -/
def procChunks : RState → Chan → List (List UpLine) → RState × Chan
  | st, ch, [] => (st, ch)
  | st, ch, c :: cl =>
    match procLines st ch c with
    | (st1, ch1) => procChunks st1 ch1 cl

/-- How the upstream stream terminates after its data chunks: the `end`
event or the `error` event. -/
inductive Terminal where
  | endOfStream : Terminal
  | streamError : Terminal

/-- Observable outcome of one relay call: the events that reached the
wire, and whether the upstream completion request was issued. -/
structure CallResult where
  events : List Event
  upstreamCalled : Bool

/-- Stream consumption once the upstream call is made: process all
chunks, then run the end handler (final `.trim()` flush plus Done) or
the error handler (single error event, no Done). -/
def runStream (chunks : List (List UpLine)) (term : Terminal) : CallResult :=
  match procChunks rInit chanInit chunks with
  | (st, ch) =>
    match term with
    | Terminal.endOfStream =>
      ⟨(closeCh (emit (if trim st.buffer = [] then ch
          else emit ch (Event.token (trim st.buffer))) Event.done)).events, true⟩
    | Terminal.streamError =>
      ⟨(closeCh (emit ch (Event.error ErrMsg.streamErr))).events, true⟩

def isHexDigit (c : Char) : Bool :=
  isDigit c || ('a' ≤ c && c ≤ 'f') || ('A' ≤ c && c ≤ 'F')

def hexV (c : Char) : Nat := (hexVal c).getD 0

/-- `decodeURIComponent`, byte level: `%XX` escapes decoded, malformed
escapes fail (multi-byte UTF-8 sequences are approximated one byte at a
time; the claims only exercise failure and plain-ASCII success). -/
def percentDecode : List Char → Option (List Char)
  | [] => some []
  | '%' :: a :: b :: r =>
    if isHexDigit a && isHexDigit b then
      (percentDecode r).map (fun d => Char.ofNat (hexV a * 16 + hexV b) :: d)
    else none
  | '%' :: _ => none
  | c :: r => (percentDecode r).map (fun d => c :: d)

/-- Processing of a present, nonempty `history` query parameter:
`JSON.parse(decodeURIComponent(history))` followed by the `.map` over
the resulting array.  A decode failure, a parse failure, or a non-array
result all raise inside the route `try` block and reach the outer
catch. -/
def historyOutcome (raw : List Char) : Option (List Json) :=
  match percentDecode raw with
  | none => none
  | some d =>
    match parseJson d with
    | some (Json.arr l) => some l
    | _ => none

/-- One relay call (the /api/chat route): the missing-credential check,
then the history parse, then the upstream stream consumption.  Error
paths write a single error event and end the response without a Done
sentinel. -/
def runCall (apiKey : Bool) (history : Option (List Char))
    (chunks : List (List UpLine)) (term : Terminal) : CallResult :=
  if apiKey then
    match history with
    | none => runStream chunks term
    | some raw =>
      if raw = [] then runStream chunks term
      else
        match historyOutcome raw with
        | some _ => runStream chunks term
        | none => ⟨[Event.error (ErrMsg.historyParse raw)], false⟩
  else ⟨[Event.error ErrMsg.apiKeyMissing], false⟩

/-- Number of Done sentinels in an event list. -/
def doneCount : List Event → Nat
  | [] => 0
  | Event.done :: tl => doneCount tl + 1
  | _ :: tl => doneCount tl

example : (runCall false none [] Terminal.endOfStream).events =
    [Event.error ErrMsg.apiKeyMissing] := by rfl

example : (runCall true none [] Terminal.streamError).events =
    [Event.error ErrMsg.streamErr] := by rfl

example : (runCall true none [[UpLine.dataLine (Payload.token (lstr "Hi."))],
    [UpLine.dataLine Payload.done], [UpLine.dataLine (Payload.token (lstr "x."))]]
    Terminal.endOfStream).events =
    [Event.token (lstr "Hi."), Event.done] := by rfl

example : (runCall true (some (lstr "\x7b")) [] Terminal.endOfStream).events =
    [Event.error (ErrMsg.historyParse (lstr "\x7b"))] := by rfl

/-- Claim C8: applying the cleanup pass to
`[Click here]([Click here](https://a.gov))` returns exactly
`(https://a.gov)`; the link-unwrapping rule first produces
`[Click here](https://a.gov)`, then the label-stripping rule removes
the remaining `[Click here]`. -/
theorem claim8_clickhere_example :
    replaceNested (lstr "[Click here]([Click here](https://a.gov))") =
      lstr "[Click here](https://a.gov)" ∧
    removeClickHere (lstr "[Click here](https://a.gov)") = lstr "(https://a.gov)" ∧
    formatBuffer (lstr "[Click here]([Click here](https://a.gov))") =
      lstr "(https://a.gov)" :=
  ⟨by decide, by decide, by decide⟩

/-- Claim C10: the cleanup pass is not the identity on already-clean
text with consecutive closing parentheses: `f(g(x))` contains no
`Click here` artifact, yet the doubled-closing-paren rule removes a
legitimate parenthesis and the output differs from the input. -/
theorem claim10_paren_loss :
    formatBuffer (lstr "f(g(x))") = lstr "f(g(x)" ∧
    containsSub chW (lstr "f(g(x))") = false ∧
    formatBuffer (lstr "f(g(x))") ≠ lstr "f(g(x))" :=
  ⟨by decide, by decide, by decide⟩

/-- Claim C5, counterexample: the cleanup pass is not idempotent; on
`)))` one application yields `))` and a second application yields `)`. -/
theorem claim5_idem_counterexample :
    formatBuffer (formatBuffer (lstr ")))")) ≠ formatBuffer (lstr ")))") := by decide

/-- Claim C5, amended: the cleanup pass is idempotent on every string
that contains neither the text `Click here` nor two adjacent closing
parentheses (on such strings it is a plain trim); it is not idempotent
in general because the doubled-parenthesis collapse can leave a new
doubled parenthesis behind. -/
theorem claim5_idem_amended (s : List Char)
    (h1 : containsSub chW s = false) (h2 : containsSub dpr s = false) :
    formatBuffer (formatBuffer s) = formatBuffer s := by
  have e1 := formatBuffer_eq_trim s h1 h2
  rw [e1, formatBuffer_eq_trim (trim s) (containsSub_trim_false chW s h1)
    (containsSub_trim_false dpr s h2), trim_idem]

/-- Witness for the amended C5 theorem at a concrete clean string. -/
theorem claim5_idem_witness :
    formatBuffer (formatBuffer (lstr "hello (world) ")) =
      formatBuffer (lstr "hello (world) ") :=
  claim5_idem_amended (lstr "hello (world) ") (by decide) (by decide)

theorem ingest_noBrace (st : RState) (t : List Char)
    (h : ((st.buffer ++ t).any fun c => c = '}') = false) :
    ingest st t = ({ st with buffer := st.buffer ++ t }, []) := by
  by_cases ht : t = []
  · subst ht
    simp [ingest]
  · simp [ingest, ht, h]

theorem runIngest_noBrace :
    ∀ (ds : List (List Char)) (st : RState),
      ((st.buffer ++ ds.flatten).any fun c => c = '}') = false →
      runIngest st ds = ({ st with buffer := st.buffer ++ ds.flatten }, []) := by
  intro ds
  induction ds with
  | nil => intro st h; simp [runIngest]
  | cons d tl ih =>
    intro st h
    simp only [List.flatten_cons, List.any_append, Bool.or_eq_false_iff] at h
    have hd : ((st.buffer ++ d).any fun c => c = '}') = false := by
      simp [List.any_append, h.1, h.2.1]
    have htl : (((st.buffer ++ d) ++ tl.flatten).any fun c => c = '}') = false := by
      simp [List.any_append, h.1, h.2.1, h.2.2]
    simp only [runIngest, ingest_noBrace st d hd]
    rw [ih { st with buffer := st.buffer ++ d } (by simpa using htl)]
    simp [List.append_assoc]

/-- Claim C1, amended: when no delta contributes a `}` character, the
canonical reassembler never flushes mid-stream (every flush site sits
behind the `buffer.includes('}')` guard), and the final flush emits
exactly the trimmed concatenation of all deltas, in order; in general
the final flush is only trimmed, not cleaned, so the emitted
concatenation need not equal the cleaned concatenation. -/
theorem claim1_order_amended (ds : List (List Char))
    (h : (ds.flatten.any fun c => c = '}') = false) :
    tokenConcat ((runIngest rInit ds).2 ++ finalizeEvents (runIngest rInit ds).1) =
      trim ds.flatten := by
  have h0 : ((rInit.buffer ++ ds.flatten).any fun c => c = '}') = false := by
    simpa [rInit] using h
  rw [runIngest_noBrace ds rInit h0]
  by_cases he : trim ((rInit.buffer : List Char) ++ ds.flatten) = []
  · simp only [rInit] at he ⊢
    simp at he
    simp [finalizeEvents, tokenConcat, he]
  · simp only [rInit] at he ⊢
    simp at he
    simp [finalizeEvents, tokenConcat, he]

/-- Witness for the amended C1 theorem at a concrete delta sequence. -/
theorem claim1_order_witness :
    tokenConcat ((runIngest rInit [lstr "Hello ", lstr "world"]).2 ++
        finalizeEvents (runIngest rInit [lstr "Hello ", lstr "world"]).1) =
      trim (List.flatten [lstr "Hello ", lstr "world"]) :=
  claim1_order_amended [lstr "Hello ", lstr "world"] (by decide)

/-- Claim C1, counterexample: for the single delta `f(g(x)) }` the call
emits the buffer verbatim at the final flush (a bare trim), while the
cleaned concatenation has lost a parenthesis to the
doubled-closing-paren rule, so the two differ. -/
theorem claim1_order_counterexample :
    tokenConcat ((runIngest rInit [lstr "f(g(x)) \x7d"]).2 ++
        finalizeEvents (runIngest rInit [lstr "f(g(x)) \x7d"]).1) ≠
      formatBuffer (List.flatten [lstr "f(g(x)) \x7d"]) := by decide

/-- Claim C3, amended: whenever the provider credential is missing, the
first and only emitted event is the error event
`{"error": "OpenAI API key is not configured"}`, no upstream request is
made, and the channel is closed without a Done sentinel (the source
writes the error and ends the response; no `[DONE]` frame follows any
error path). -/
theorem claim3_apikey_amended (history : Option (List Char))
    (chunks : List (List UpLine)) (term : Terminal) :
    runCall false history chunks term =
      ⟨[Event.error ErrMsg.apiKeyMissing], false⟩ := rfl

/-- Claim C3, counterexample: with the credential missing the call emits
exactly the configuration error and zero Done events, so the error is
not followed by a Done event as the claim states. -/
theorem claim3_apikey_counterexample :
    (runCall false none [] Terminal.endOfStream).events =
      [Event.error ErrMsg.apiKeyMissing] ∧
    doneCount (runCall false none [] Terminal.endOfStream).events = 0 :=
  ⟨rfl, rfl⟩

def isStructuredEv : Event → Bool
  | Event.structured _ => true
  | _ => false

/-- Claim C4, amended: the `hasMainAnswer` flag is set exactly when a
structured payload is emitted and is never reset, but the flag is never
consulted by any flush site, so plain-text token flushes can still
occur after a structured emission (see the counterexample). -/
theorem claim4_flag_amended (st : RState) (t : List Char) :
    (ingest st t).1.hasMainAnswer =
      (st.hasMainAnswer || (ingest st t).2.any isStructuredEv) := by
  unfold ingest catchFlush
  repeat' split
  all_goals simp [isStructuredEv]

/-- Claim C4, counterexample: after a successful structured emission
(first delta, a complete `response` JSON), a later delta `}.` makes the
buffer contain `}`, fail `JSON.parse` and end in a sentence terminator,
so the catch branch emits a further plain-text token flush. -/
theorem claim4_flag_counterexample :
    (runIngest rInit
        [lstr "\x7b\"response\":\x7b\"mainAnswer\":\"Yes.\",\"language\":\"en\"\x7d\x7d",
         lstr "\x7d."]).2 =
      [Event.token (lstr "Yes.\n\n"),
       Event.structured (Json.obj [(lstr "mainAnswer", Json.str (lstr "Yes.")),
         (lstr "language", Json.str (lstr "en"))]),
       Event.token (lstr "\x7d.")] := rfl

/-- Claim C6, counterexample: the canonical variant has no length
threshold at all; feeding a single 101-character unpunctuated delta
(no `}`, no blank line) to its reassembler emits nothing, the whole
delta staying buffered. -/
theorem claim6_threshold_counterexample :
    (ingest rInit (List.replicate 101 'a')).2 = [] ∧
    (ingest rInit (List.replicate 101 'a')).1.buffer = List.replicate 101 'a' :=
  ⟨rfl, rfl⟩

/-- Claim C6, amended: the length threshold exists only in the
plain-text variant (src/unnamed/part_000): there, with no
sentence-terminal punctuation, no flush occurs while the buffer holds
at most 100 characters, and a flush of the cleaned buffer is emitted
once it reaches 101 characters, provided the cleaned buffer is nonempty
(a blank buffer is not emitted and not cleared).  The canonical
structured variant never flushes on length. -/
theorem claim6_threshold_amended (b t : List Char) (ht : t ≠ [])
    (hp : endsPunct (b ++ t) = false) :
    ((b ++ t).length ≤ 100 → ingestV0 b t = (b ++ t, [])) ∧
    ((b ++ t).length = 101 → cleanV0 (b ++ t) ≠ [] →
      ingestV0 b t = ([], [Event.token (cleanV0 (b ++ t))])) := by
  constructor
  · intro hlen
    have hc : ¬(endsPunct (b ++ t) = true ∨ 100 < (b ++ t).length) := by
      simp only [hp, Bool.false_eq_true, false_or, not_lt]
      omega
    unfold ingestV0
    rw [if_neg ht, if_neg hc]
  · intro hlen hcl
    have hc : endsPunct (b ++ t) = true ∨ 100 < (b ++ t).length := Or.inr (by omega)
    unfold ingestV0
    rw [if_neg ht, if_pos hc, if_neg hcl]

/-- Witness for the amended C6 theorem: 101 letters flush, 100 do not. -/
theorem claim6_threshold_witness :
    ingestV0 (List.replicate 100 'a') ['a'] =
      ([], [Event.token (cleanV0 (List.replicate 100 'a' ++ ['a']))]) ∧
    ingestV0 (List.replicate 99 'a') ['a'] = (List.replicate 99 'a' ++ ['a'], []) :=
  ⟨(claim6_threshold_amended (List.replicate 100 'a') ['a'] (by decide) (by decide)).2
      (by decide) (by decide),
   (claim6_threshold_amended (List.replicate 99 'a') ['a'] (by decide) (by decide)).1
      (by decide)⟩

/-- Claim C7: when the accumulated buffer parses as JSON with a truthy
`response` member that conforms to the StructuredAnswer shape
(`responseOk`, which contains the spec's schema: steps and sources
absent, falsy, or arrays of dereferenceable elements), `ingest` renders
the response deterministically into Markdown (`renderMarkdown`: main
answer paragraph, numbered bold step titles, description lines, first
link after `Helpful links:`, remaining links and sources as bullets),
emits the rendered Markdown as one token event and the raw structured
object as a second separate event, clears the buffer and sets the
flags (`stepCount` receiving the value of `response.steps.length`).
Outside `responseOk` the Markdown construction can throw a TypeError,
which the source catches, emitting nothing (`renderMarkdown?` models
those cases). -/
theorem claim7_structured (st : RState) (t : List Char) (j r : Json)
    (ht : t ≠ [])
    (hb : ((st.buffer ++ t).any fun c => c = '}') = true)
    (hj : parseJson (st.buffer ++ t) = some j)
    (hr : jGet j (lstr "response") = some r)
    (htr : truthy r = true)
    (hok : responseOk r = true) :
    ingest st t =
      ({ buffer := [], hasMainAnswer := true, stepCount := stepCountOf r,
         hasShownSources := true },
       [Event.token (renderMarkdown r), Event.structured r]) := by
  simp [ingest, ht, hb, hj, hr, htr, renderMarkdown_ok r hok]

/-- A structured response value with a step, two links and a source,
used by the C7 witness. -/
def respW : Json :=
  Json.obj [(lstr "mainAnswer", Json.str (lstr "Yes.")),
    (lstr "steps", Json.arr [Json.obj [
      (lstr "title", Json.str (lstr "T")),
      (lstr "description", Json.str (lstr "D")),
      (lstr "links", Json.arr [
        Json.obj [(lstr "text", Json.str (lstr "L")), (lstr "url", Json.str (lstr "U"))],
        Json.obj [(lstr "text", Json.str (lstr "M")), (lstr "url", Json.str (lstr "V"))]])]]),
    (lstr "sources", Json.arr [Json.obj [
      (lstr "name", Json.str (lstr "S")), (lstr "url", Json.str (lstr "W"))]]),
    (lstr "language", Json.str (lstr "en"))]

/-- The SSE text of the C7 witness payload. -/
def deltaW : List Char :=
  lstr "\x7b\"response\":\x7b\"mainAnswer\":\"Yes.\",\"steps\":[\x7b\"title\":\"T\",\"description\":\"D\",\"links\":[\x7b\"text\":\"L\",\"url\":\"U\"\x7d,\x7b\"text\":\"M\",\"url\":\"V\"\x7d]\x7d],\"sources\":[\x7b\"name\":\"S\",\"url\":\"W\"\x7d],\"language\":\"en\"\x7d\x7d"

set_option maxRecDepth 16384 in
/-- Witness for C7 at a concrete complete structured payload featuring
steps, links and sources. -/
theorem claim7_structured_witness :
    ingest rInit deltaW =
      ({ buffer := [], hasMainAnswer := true, stepCount := stepCountOf respW,
         hasShownSources := true },
       [Event.token (renderMarkdown respW), Event.structured respW]) :=
  claim7_structured rInit deltaW
    (Json.obj [(lstr "response", respW)]) respW
    (by decide) (by decide) (by rfl) (by rfl) (by rfl) (by rfl)

/-- Claim C9: with the credential present, a present nonempty `history`
parameter that does not decode to a JSON array makes `JSON.parse`
(or `decodeURIComponent`, or the subsequent `.map`) throw inside the
route try block; the outer catch emits a single error event carrying the
exception message and ends the call, and the upstream request is never
issued. -/
theorem claim9_history (raw : List Char) (chunks : List (List UpLine))
    (term : Terminal) (h0 : raw ≠ []) (h1 : historyOutcome raw = none) :
    runCall true (some raw) chunks term =
      ⟨[Event.error (ErrMsg.historyParse raw)], false⟩ := by
  simp [runCall, h0, h1]

/-- Witness for C9: history `{` (valid URL encoding, invalid JSON). -/
theorem claim9_history_witness :
    runCall true (some (lstr "\x7b")) [] Terminal.endOfStream =
      ⟨[Event.error (ErrMsg.historyParse (lstr "\x7b"))], false⟩ :=
  claim9_history (lstr "\x7b") [] Terminal.endOfStream (by decide) (by rfl)

end Solacium
